import Mathlib

/-!
Shallow embedding of the CVRP routing core (src/cvrp.ts): the Clarke-Wright
savings heuristic (calculateSavings, clarkWright) and the nearest-depot
clustering (getNearestDepot, formDepotClusters, routeWithinClusters,
multiDepotVehicleRouter).

Modelling conventions, in order of appearance in the source:

* JS numbers (coordinates, demands, capacities, saving values) are embedded
  as exact rationals.  The source only adds, subtracts, negates, takes
  absolute values of and compares these quantities, so exact arithmetic is
  the intended semantics of the float code.

* The haversine metric (the source's distance function) computes with
  transcendental functions, which have no executable exact embedding; the
  routing logic consumes distances only through the saving values and their
  ordering, so everything is embedded parametrically in an arbitrary metric
  dist : Coordinate -> Coordinate -> Q.  All invariant theorems quantify
  over every dist, which in particular covers the haversine metric.
  Concrete runs place all points on the equator, where the source's
  haversine distance is exactly (6371 * pi / 180) * |delta longitude| for
  longitudes within 180 degrees of each other; savings are linear in
  distances, so the metric distLong a b = |a.long - b.long| produces
  exactly the saving ordering (and hence the run) of the source.

* The source mutates Route objects that are aliased from the routes array
  and from several nodeToRoute map entries.  The embedding uses an arena:
  every Route object ever allocated gets a numeric identity (RouteId); the
  routes array is a list of identities, nodeToRoute maps node ids to
  identities, and the arena assigns each identity its current Route record.
  Mutating a shared object = updating the arena at its identity.

* JS Map get/set is embedded as an association list where set prepends a
  binding and get takes the first match (observably equal to overwrite).
  Map.set never removes keys, matching the source, which never deletes.

* IDType = string | number.  Identities are only compared for equality; the
  union is embedded as a sum of strings and rationals.  The few loose (==)
  comparisons in the source compare values drawn from the same node list,
  where loose and strict equality agree unless a problem instance mixes a
  numeric string with the equal number; structural equality is used.
-/

namespace Cvrp

inductive NodeType where
  | ORDER
  | VENDOR
deriving DecidableEq, Repr

/-- IDType = string | number. -/
inductive IDType where
  | str (s : String)
  | num (q : ℚ)
deriving DecidableEq, Repr

structure Coordinate where
  lat : ℚ
  long : ℚ
deriving DecidableEq, Repr

/-- Vehicle = Coordinate & \x7b id: number; capacity?: number \x7d. -/
structure Vehicle where
  lat : ℚ
  long : ℚ
  id : ℚ
  capacity : Option ℚ
deriving DecidableEq, Repr

def Vehicle.toCoord (v : Vehicle) : Coordinate := ⟨v.lat, v.long⟩

/-- NodeV = Coordinate & \x7b id; type; demand; vendorId? \x7d. -/
structure NodeV where
  lat : ℚ
  long : ℚ
  id : IDType
  type : NodeType
  demand : ℚ
  vendorId : Option IDType
deriving DecidableEq, Repr

def NodeV.toCoord (n : NodeV) : Coordinate := ⟨n.lat, n.long⟩

structure Saving where
  i : IDType
  j : IDType
  saving : ℚ
deriving DecidableEq, Repr

structure Route where
  nodes : List IDType
  capacityUsed : ℚ
  vehicleCapacity : ℚ
deriving DecidableEq, Repr

def VEHICLE_INITIAL_CAPACITY : ℚ := 10

/-- Math.abs.  (Defined directly so that concrete runs reduce in the
kernel; equal to Mathlib's absolute value, see ratAbs_eq_abs.) -/
def ratAbs (q : ℚ) : ℚ := if q < 0 then -q else q

/-- depot.capacity ?? VEHICLE_INITIAL_CAPACITY. -/
def vehCapacity (depot : Vehicle) : ℚ :=
  depot.capacity.getD VEHICLE_INITIAL_CAPACITY

/-- The saving value of an ordered pair of nodes:
distance(depot, a) + distance(depot, b) - distance(a, b). -/
def savingValue (dist : Coordinate → Coordinate → ℚ) (depot : Vehicle)
    (a b : NodeV) : ℚ :=
  dist depot.toCoord a.toCoord + dist depot.toCoord b.toCoord -
    dist a.toCoord b.toCoord

/-- Inner loop of calculateSavings: the savings of node a paired with each
later node of the list, kept only when both endpoints are ORDER nodes. -/
def savingsWith (dist : Coordinate → Coordinate → ℚ) (depot : Vehicle)
    (a : NodeV) (rest : List NodeV) : List Saving :=
  rest.filterMap fun b =>
    if a.type = NodeType.ORDER ∧ b.type = NodeType.ORDER then
      some ⟨a.id, b.id, savingValue dist depot a b⟩
    else none

/-- calculateSavings: the double loop over index pairs i < j of the node
list, producing one Saving per pair of ORDER nodes, in index order. -/
def calculateSavings (dist : Coordinate → Coordinate → ℚ) (depot : Vehicle) :
    List NodeV → List Saving
  | [] => []
  | a :: rest => savingsWith dist depot a rest ++ calculateSavings dist depot rest

/-- One step of a stable descending insertion sort on the saving value:
an element is placed before the first element whose saving does not exceed
its own, so equal savings keep their original (production) order.  This is
the behaviour of the source's stable sort with comparator
(a, b) => b.saving - a.saving. -/
def insertSavingDesc (s : Saving) : List Saving → List Saving
  | [] => [s]
  | t :: ts => if t.saving ≤ s.saving then s :: t :: ts else t :: insertSavingDesc s ts

/-- Stable descending sort of the savings list. -/
def sortSavingsDesc : List Saving → List Saving
  | [] => []
  | s :: ss => insertSavingDesc s (sortSavingsDesc ss)

/-- Identity of an allocated Route object in the arena. -/
abbrev RouteId := Nat

/-- State of one clarkWright run: the routes array (identities, in array
order), the arena assigning each allocated identity its current Route
record, the nodeToRoute map, and the next fresh identity. -/
structure CWState where
  routes : List RouteId
  arena : List (RouteId × Route)
  nodeToRoute : List (IDType × RouteId)
  next : RouteId
deriving DecidableEq, Repr

def initState : CWState := ⟨[], [], [], 0⟩

/-- nodeToRoute.get: first (= most recent) binding of the id. -/
def lookupNTR (m : List (IDType × RouteId)) (x : IDType) : Option RouteId :=
  (m.find? fun p => p.fst == x).map Prod.snd

/-- Current record of an allocated Route object. -/
def lookupArena (ar : List (RouteId × Route)) (rid : RouteId) : Option Route :=
  (ar.find? fun p => p.fst == rid).map Prod.snd

def getRouteId (st : CWState) (x : IDType) : Option RouteId :=
  lookupNTR st.nodeToRoute x

def lookupRoute (st : CWState) (rid : RouteId) : Option Route :=
  lookupArena st.arena rid

/-- Mutation of the shared Route object named rid. -/
def setRoute (ar : List (RouteId × Route)) (rid : RouteId) (r : Route) :
    List (RouteId × Route) :=
  ar.map fun p => if p.fst == rid then (rid, r) else p

/-- routes.splice(routes.indexOf(rid), 1): removes the first occurrence of
rid when present; when indexOf yields -1, splice(-1, 1) removes the LAST
element of the array (and nothing from an empty array). -/
def removeRouteId (routes : List RouteId) (rid : RouteId) : List RouteId :=
  if rid ∈ routes then routes.erase rid else routes.dropLast

/-- Net demand effect of visiting a node:
node.type === ORDER ? node.demand : -node.demand. -/
def demandEffect (n : NodeV) : ℚ :=
  if n.type = NodeType.ORDER then n.demand else -n.demand

/-- nodeList.find(node => node.id === x). -/
def findNode (nodeList : List NodeV) (x : IDType) : Option NodeV :=
  nodeList.find? fun n => n.id == x

/-- One iteration of the savings loop of clarkWright (steps 3a-3c of the
source): the four cases on the route assignments of the saving's endpoints.
A saving whose endpoints are not both found in the node list is skipped. -/
def processSaving (depot : Vehicle) (nodeList : List NodeV) (st : CWState)
    (s : Saving) : CWState :=
  match findNode nodeList s.i, findNode nodeList s.j with
  | some node_i, some node_j =>
    match getRouteId st s.i, getRouteId st s.j with
    | none, none =>
      let newCapacityUsed :=
        vehCapacity depot - demandEffect node_i - demandEffect node_j
      if 0 ≤ newCapacityUsed then
        ⟨st.routes ++ [st.next],
         st.arena ++ [(st.next, ⟨[s.i, s.j], newCapacityUsed, vehCapacity depot⟩)],
         (s.j, st.next) :: (s.i, st.next) :: st.nodeToRoute,
         st.next + 1⟩
      else st
    | some ri, none =>
      match lookupRoute st ri with
      | some r =>
        let newCapacityUsed := r.capacityUsed - demandEffect node_j
        if 0 ≤ newCapacityUsed then
          let newNodes :=
            if r.nodes.head? = some s.i then s.j :: r.nodes else r.nodes ++ [s.j]
          ⟨st.routes,
           setRoute st.arena ri ⟨newNodes, newCapacityUsed, r.vehicleCapacity⟩,
           (s.j, ri) :: st.nodeToRoute,
           st.next⟩
        else st
      | none => st
    | none, some rj =>
      match lookupRoute st rj with
      | some r =>
        let newCapacityUsed := r.capacityUsed - demandEffect node_i
        if 0 ≤ newCapacityUsed then
          let newNodes :=
            if r.nodes.head? = some s.j then s.i :: r.nodes else r.nodes ++ [s.i]
          ⟨st.routes,
           setRoute st.arena rj ⟨newNodes, newCapacityUsed, r.vehicleCapacity⟩,
           (s.i, rj) :: st.nodeToRoute,
           st.next⟩
        else st
      | none => st
    | some ri, some rj =>
      if ri = rj then st
      else
        match lookupRoute st ri, lookupRoute st rj with
        | some r_i, some r_j =>
          let newCapacityForRouteI := r_i.capacityUsed - demandEffect node_j
          let newCapacityForRouteJ := r_j.capacityUsed - demandEffect node_i
          if 0 ≤ newCapacityForRouteI ∧ 0 ≤ newCapacityForRouteJ then
            if r_i.nodes.getLast? = some s.i ∧ r_j.nodes.head? = some s.j then
              ⟨removeRouteId st.routes rj,
               setRoute st.arena ri
                 ⟨r_i.nodes ++ r_j.nodes, newCapacityForRouteI, r_i.vehicleCapacity⟩,
               (s.j, ri) :: st.nodeToRoute,
               st.next⟩
            else if r_i.nodes.head? = some s.i ∧ r_j.nodes.getLast? = some s.j then
              ⟨removeRouteId st.routes rj,
               setRoute st.arena ri
                 ⟨r_j.nodes ++ r_i.nodes, newCapacityForRouteJ, r_i.vehicleCapacity⟩,
               (s.i, ri) :: st.nodeToRoute,
               st.next⟩
            else st
          else st
        | some _, none => st
        | none, some _ => st
        | none, none => st
  | some _, none => st
  | none, some _ => st
  | none, none => st

/-- The trailing loop of clarkWright: a node with no nodeToRoute entry gets
a one-node fallback Route when its demand fits the depot capacity. -/
def fallback (depot : Vehicle) (st : CWState) (node : NodeV) : CWState :=
  if (getRouteId st node.id).isSome then st
  else if node.type = NodeType.ORDER ∧ node.demand ≤ vehCapacity depot then
    ⟨st.routes ++ [st.next],
     st.arena ++ [(st.next, ⟨[node.id], vehCapacity depot - node.demand, vehCapacity depot⟩)],
     (node.id, st.next) :: st.nodeToRoute,
     st.next + 1⟩
  else if node.type = NodeType.VENDOR ∧ ratAbs node.demand ≤ vehCapacity depot then
    ⟨st.routes ++ [st.next],
     st.arena ++ [(st.next, ⟨[node.id], vehCapacity depot + node.demand, vehCapacity depot⟩)],
     (node.id, st.next) :: st.nodeToRoute,
     st.next + 1⟩
  else st

/-- State after step 2 of clarkWright: every saving of the ranked list
processed, in order. -/
def savingsPhase (dist : Coordinate → Coordinate → ℚ) (depot : Vehicle)
    (nodeList : List NodeV) : CWState :=
  (sortSavingsDesc (calculateSavings dist depot nodeList)).foldl
    (processSaving depot nodeList) initState

/-- Final state of a clarkWright run (savings loop, then fallback loop). -/
def clarkWrightState (dist : Coordinate → Coordinate → ℚ) (depot : Vehicle)
    (nodeList : List NodeV) : CWState :=
  nodeList.foldl (fallback depot) (savingsPhase dist depot nodeList)

/-- clarkWright: the contents of the routes array at the end of the run. -/
def clarkWright (dist : Coordinate → Coordinate → ℚ) (depot : Vehicle)
    (nodeList : List NodeV) : List Route :=
  (clarkWrightState dist depot nodeList).routes.filterMap
    (lookupRoute (clarkWrightState dist depot nodeList))

structure VendorOrderCluster where
  vendor : NodeV
  orders : List NodeV
deriving DecidableEq, Repr

/-- order.vendorId === vendor.id (false when vendorId is absent). -/
def isAssociatedWithVendor (order : NodeV) (vendor : NodeV) : Bool :=
  order.vendorId == some vendor.id

/-- One step of the getNearestDepot scan.  The source starts the scan at
distance Infinity, so the first depot always replaces an empty best; a
later depot replaces the best exactly when strictly closer. -/
def nearestStep (dist : Coordinate → Coordinate → ℚ) (location : Coordinate)
    (best : Option (ℚ × ℚ)) (depot : Vehicle) : Option (ℚ × ℚ) :=
  let d := dist depot.toCoord location
  match best with
  | none => some (depot.id, d)
  | some b => if d < b.snd then some (depot.id, d) else some b

/-- getNearestDepot: id of the first depot at minimal distance from the
location, null (none) for an empty depot list. -/
def getNearestDepot (dist : Coordinate → Coordinate → ℚ)
    (depotList : List Vehicle) (location : Coordinate) : Option IDType :=
  (depotList.foldl (nearestStep dist location) none).map fun p => IDType.num p.fst

/-- JS Map get as an association list lookup (insertion order preserved). -/
def mapGet {α : Type} (m : List (IDType × α)) (k : IDType) : Option α :=
  (m.find? fun p => p.fst == k).map Prod.snd

/-- JS Map set: overwrite in place when the key is present, append
otherwise. -/
def mapSet {α : Type} (m : List (IDType × α)) (k : IDType) (v : α) :
    List (IDType × α) :=
  if (m.find? fun p => p.fst == k).isSome then
    m.map fun p => if p.fst == k then (k, v) else p
  else m ++ [(k, v)]

/-- formDepotClusters: each vendor, with the orders referencing it, is
appended to the cluster list of its nearest depot; vendors with no nearest
depot (empty depot list) are skipped. -/
def formDepotClusters (dist : Coordinate → Coordinate → ℚ)
    (depotList : List Vehicle) (vendorList orderList : List NodeV) :
    List (IDType × List VendorOrderCluster) :=
  vendorList.foldl
    (fun depotClusters vendor =>
      let associatedOrders := orderList.filter fun order =>
        isAssociatedWithVendor order vendor
      match getNearestDepot dist depotList vendor.toCoord with
      | some nearestDepotId =>
        mapSet depotClusters nearestDepotId
          ((mapGet depotClusters nearestDepotId).getD [] ++
            [⟨vendor, associatedOrders⟩])
      | none => depotClusters)
    []

/-- routeWithinClusters: for each depot with a cluster list, run
clarkWright on [vendor, ...orders] for every cluster and collect all
resulting routes under the depot's id. -/
def routeWithinClusters (dist : Coordinate → Coordinate → ℚ)
    (depotList : List Vehicle)
    (depotClusters : List (IDType × List VendorOrderCluster)) :
    List (IDType × List Route) :=
  depotList.foldl
    (fun depotRoutes depot =>
      match mapGet depotClusters (IDType.num depot.id) with
      | some clusters =>
        mapSet depotRoutes (IDType.num depot.id)
          (clusters.foldl
            (fun allRoutesForDepot cluster =>
              allRoutesForDepot ++
                clarkWright dist depot (cluster.vendor :: cluster.orders))
            [])
      | none => depotRoutes)
    []

/-- multiDepotVehicleRouter: clustering, then per-cluster routing. -/
def multiDepotVehicleRouter (dist : Coordinate → Coordinate → ℚ)
    (vehicleList : List Vehicle) (vendorList orderList : List NodeV) :
    List (IDType × List Route) :=
  routeWithinClusters dist vehicleList
    (formDepotClusters dist vehicleList vendorList orderList)

/-- Metric used by the concrete runs: all their points lie on the equator,
where the source's haversine distance is exactly
(6371 * pi / 180) * |a.long - b.long|; saving values are linear in
distances, so this metric induces exactly the source's saving ordering. -/
def distLong (a b : Coordinate) : ℚ := ratAbs (a.long - b.long)

/-- Sum of the demand effects of the member nodes of a route (the total
load of the route, orders consuming capacity, vendors releasing it). -/
def routeLoad (nodeList : List NodeV) (r : Route) : ℚ :=
  (r.nodes.filterMap (findNode nodeList)).foldl
    (fun acc n => acc + demandEffect n) 0


/-- All index pairs i < j of a list, as ordered element pairs, in the
production order of the source's double loop. -/
def allPairs {α : Type} : List α → List (α × α)
  | [] => []
  | x :: xs => (xs.map fun y => (x, y)) ++ allPairs xs


/-- Capacity invariant: every Route record ever allocated in the arena has
non-negative capacityUsed. -/
def capInv (st : CWState) : Prop :=
  ∀ pr ∈ st.arena, 0 ≤ pr.2.capacityUsed

/-- A node's solitary demand fits the depot capacity: the condition of the
fallback loop (ORDER: demand ≤ capacity; VENDOR: |demand| ≤ capacity). -/
def fitsDemand (depot : Vehicle) (n : NodeV) : Prop :=
  (n.type = NodeType.ORDER ∧ n.demand ≤ vehCapacity depot) ∨
  (n.type = NodeType.VENDOR ∧ ratAbs n.demand ≤ vehCapacity depot)

instance (depot : Vehicle) (n : NodeV) : Decidable (fitsDemand depot n) := by
  unfold fitsDemand ; infer_instance


/-- Registration invariant: every node id occurring in any allocated Route
record's node sequence has a nodeToRoute binding. -/
def regInv (st : CWState) : Prop :=
  ∀ pr ∈ st.arena, ∀ x ∈ pr.2.nodes, (lookupNTR st.nodeToRoute x).isSome


/-- A node id mentioned as an endpoint of some saving of the list. -/
def savingMentions (sl : List Saving) (x : IDType) : Prop :=
  ∃ s ∈ sl, x = s.i ∨ x = s.j

/-!
Concrete problem instances.  All nodes lie on the equator (latitude 0), so
with the source's haversine metric every saving equals
(6371 * pi / 180) * (its distLong value); the saving rankings below are
therefore exactly the source's rankings, with equal values ordered by the
stable sort's production order, as specified.
-/

/-- Depot at the origin with capacity 10, for the capacity-violation run. -/
def depotC1 : Vehicle := ⟨0, 0, 1, some 10⟩

/-- Four ORDER nodes: ids 1, 2 (demands 1, 1) east of the depot, ids 3, 4
(demands 4, 5) west of it.  Savings rank: (1,2), then (3,4), then the four
zero cross-side pairs in production order. -/
def nodesC1 : List NodeV :=
  [⟨0, 2, .num 1, .ORDER, 1, none⟩, ⟨0, 3, .num 2, .ORDER, 1, none⟩,
   ⟨0, -1, .num 3, .ORDER, 4, none⟩, ⟨0, -2, .num 4, .ORDER, 5, none⟩]

/-- Depot for the duplication run. -/
def depotC2 : Vehicle := ⟨0, 0, 1, some 10⟩

/-- Eight ORDER nodes, ids 1, 2, 3, 4 east and ids 5, 6, 7, 8 west of the
depot, demands 4, 4, 3, 3, 2, 4, 5, 5. -/
def nodesC2 : List NodeV :=
  [⟨0, 8, .num 1, .ORDER, 4, none⟩, ⟨0, 9, .num 2, .ORDER, 4, none⟩,
   ⟨0, 4, .num 3, .ORDER, 3, none⟩, ⟨0, 3, .num 4, .ORDER, 3, none⟩,
   ⟨0, -7, .num 5, .ORDER, 2, none⟩, ⟨0, -6, .num 6, .ORDER, 4, none⟩,
   ⟨0, -2, .num 7, .ORDER, 5, none⟩, ⟨0, -1, .num 8, .ORDER, 5, none⟩]

/-- Depot for the interior-attachment run. -/
def depotC3 : Vehicle := ⟨0, 0, 1, some 10⟩

/-- Four ORDER nodes of demand 1 east of the depot at longitudes 4, 3, 2, 1.
Savings rank: (1,2) = 6, then (1,3) and (2,3) = 4, then (1,4), (2,4),
(3,4) = 2, equal values in production order. -/
def nodesC3 : List NodeV :=
  [⟨0, 4, .num 1, .ORDER, 1, none⟩, ⟨0, 3, .num 2, .ORDER, 1, none⟩,
   ⟨0, 2, .num 3, .ORDER, 1, none⟩, ⟨0, 1, .num 4, .ORDER, 1, none⟩]

/-- Depot for the over-capacity singleton run. -/
def depotC8 : Vehicle := ⟨0, 0, 1, some 10⟩

/-- A single ORDER node whose demand 11 exceeds the depot capacity 10. -/
def nodeC8 : NodeV := ⟨0, 1, .num 1, .ORDER, 11, none⟩


/-- Depot for the merge-case witness. -/
def depotC4 : Vehicle := ⟨0, 0, 1, some 10⟩

/-- Two ORDER nodes for the merge-case witness. -/
def nodesC4 : List NodeV :=
  [⟨0, 1, .num 1, .ORDER, 1, none⟩, ⟨0, 2, .num 2, .ORDER, 1, none⟩]

/-- A state with two singleton routes, for the merge-case witness. -/
def stC4 : CWState :=
  ⟨[0, 1], [(0, ⟨[.num 1], 9, 10⟩), (1, ⟨[.num 2], 9, 10⟩)],
   [(.num 1, 0), (.num 2, 1)], 2⟩

/-- The saving joining the two routes of stC4. -/
def savC4 : Saving := ⟨.num 1, .num 2, 0⟩

/-- Two depots for the clustering witness. -/
def depotC9a : Vehicle := ⟨0, 0, 1, some 10⟩

def depotC9b : Vehicle := ⟨0, 10, 2, some 10⟩

/-- A vendor near the first depot, with one associated order. -/
def vendorC9 : NodeV := ⟨0, 1, .num 5, .VENDOR, -2, none⟩

def orderC9 : NodeV := ⟨0, 2, .num 6, .ORDER, 2, some (.num 5)⟩

/-!
Theorems.  The Rat arithmetic operations are made semireducible inside this
namespace so that concrete runs evaluate under kernel reduction.
-/

attribute [local semireducible] Rat.add Rat.sub Rat.mul Rat.inv

theorem ratAbs_eq_abs (q : ℚ) : ratAbs q = |q| := by
  unfold ratAbs
  split
  · rw [abs_of_neg] ; assumption
  · rw [abs_of_nonneg] ; linarith [not_lt.mp (by assumption : ¬ q < 0)]

/-- C1: the capacity invariant FAILS on the code.  On nodesC1 (total demand
4 + 5 + 1 + 1 = 11 against capacity 10) the run pairs nodes 1, 2 into one
route and 3, 4 into another, then concatenates them on the zero-saving pair
(1, 4): the merge guard subtracts only the demand of the single endpoint
node from each route's remaining capacity instead of the absorbed route's
total load, so the surviving route [3, 4, 1, 2] carries load 11 > 10.  (The
violation does not depend on the order of the four tied zero savings:
whichever of the pairs (1, 4), (2, 3) arrives first merges the two routes;
the pairs (1, 3) and (2, 4) never match an endpoint orientation.) -/
theorem clarkWright_merge_capacity_violation :
    clarkWright distLong depotC1 nodesC1 =
      [⟨[.num 3, .num 4, .num 1, .num 2], 0, 10⟩] ∧
    routeLoad nodesC1 ⟨[.num 3, .num 4, .num 1, .num 2], 0, 10⟩ = 11 ∧
    vehCapacity depotC1 = 10 := by decide

/-- C2: the partition/merge-bookkeeping invariant FAILS on the code.  On
nodesC2 the run builds four pair routes 0 = [1, 2], 1 = [5, 6], 2 = [3, 4],
3 = [7, 8]; saving (2, 5) concatenates route 1 into route 0, but only the
endpoint node 5 is re-registered — node 6 keeps its stale binding to the
absorbed route 1 (third conjunct) although 1 has left the collection
(fourth conjunct); the later saving (3, 6) therefore finds the stale route
1 behind node 6, concatenates its nodes [5, 6] into route 2 as well, and
routes.splice(routes.indexOf(stale), 1) = splice(-1, 1) removes the LAST
active route 3 instead of the absorbed one — so nodes 5 and 6 each appear
in TWO returned routes (second conjunct) and nodes 7, 8 of the innocent
route 3 are lost (fifth and sixth conjuncts). -/
theorem clarkWright_merge_bookkeeping_violation :
    clarkWright distLong depotC2 nodesC2 =
      [⟨[.num 1, .num 2, .num 5, .num 6], 0, 10⟩,
       ⟨[.num 5, .num 6, .num 3, .num 4], 1, 10⟩] ∧
    ((clarkWright distLong depotC2 nodesC2).filter
        (fun r => decide ((IDType.num 5) ∈ r.nodes))).length = 2 ∧
    lookupNTR (clarkWrightState distLong depotC2 nodesC2).nodeToRoute (.num 6) = some 1 ∧
    (1 : RouteId) ∉ (clarkWrightState distLong depotC2 nodesC2).routes ∧
    lookupNTR (clarkWrightState distLong depotC2 nodesC2).nodeToRoute (.num 7) = some 3 ∧
    (3 : RouteId) ∉ (clarkWrightState distLong depotC2 nodesC2).routes := by
  set_option maxRecDepth 40000 in decide

/-- C3: the endpoint-only attachment rule FAILS on the code.  After the
first three savings of the nodesC3 run the single route is [3, 1, 2] with
node 4 unassigned; node 1 is neither the first nor the last element.  The
next ranked saving is (1, 4), and the one-assigned case attaches 4 anyway:
the code tests only nodes[0] == i (prepend) and otherwise appends, with no
endpoint check, so the route becomes [3, 1, 2, 4] instead of being left
unchanged. -/
theorem clarkWright_interior_attach_violation :
    ((sortSavingsDesc (calculateSavings distLong depotC3 nodesC3)).take 3).foldl
        (processSaving depotC3 nodesC3) initState =
      ⟨[0], [(0, ⟨[.num 3, .num 1, .num 2], 7, 10⟩)],
       [(.num 3, 0), (.num 2, 0), (.num 1, 0)], 1⟩ ∧
    (sortSavingsDesc (calculateSavings distLong depotC3 nodesC3)).drop 3 =
      [⟨.num 1, .num 4, 2⟩, ⟨.num 2, .num 4, 2⟩, ⟨.num 3, .num 4, 2⟩] ∧
    clarkWright distLong depotC3 nodesC3 =
      [⟨[.num 3, .num 1, .num 2, .num 4], 6, 10⟩] := by decide

/-- C8 counterexample: an unroutable node is NOT surfaced.  The single
node of demand 11 against capacity 10 produces the output [] — identical
to the output on the empty instance, so nothing about the node reaches the
caller: it is silently absent from the returned route collection (the
source leaves this case as a TODO). -/
theorem clarkWright_overcapacity_not_surfaced :
    clarkWright distLong depotC8 [nodeC8] = [] ∧
    clarkWright distLong depotC8 [] = [] ∧
    vehCapacity depotC8 < nodeC8.demand := by decide


theorem mem_allPairs {α : Type} {p : α × α} :
    ∀ {l : List α}, p ∈ allPairs l → p.1 ∈ l ∧ p.2 ∈ l := by
  intro l
  induction l with
  | nil => intro h ; simp [allPairs] at h
  | cons x xs ih =>
    intro h
    rw [allPairs, List.mem_append] at h
    rcases h with h | h
    · rcases List.mem_map.mp h with ⟨y, hy, hp⟩
      subst hp
      exact ⟨List.mem_cons_self _ _, List.mem_cons_of_mem _ hy⟩
    · rcases ih h with ⟨h1, h2⟩
      exact ⟨List.mem_cons_of_mem _ h1, List.mem_cons_of_mem _ h2⟩

theorem calculateSavings_eq_allPairs (dist : Coordinate → Coordinate → ℚ)
    (depot : Vehicle) (ns : List NodeV) :
    calculateSavings dist depot ns =
      (allPairs ns).filterMap fun p =>
        if p.1.type = NodeType.ORDER ∧ p.2.type = NodeType.ORDER then
          some ⟨p.1.id, p.2.id, savingValue dist depot p.1 p.2⟩
        else none := by
  induction ns with
  | nil => rfl
  | cons a rest ih =>
    rw [calculateSavings, allPairs, List.filterMap_append, ih, List.filterMap_map]
    rfl

theorem mem_calculateSavings (dist : Coordinate → Coordinate → ℚ)
    (depot : Vehicle) (ns : List NodeV) (s : Saving)
    (hs : s ∈ calculateSavings dist depot ns) :
    ∃ a ∈ ns, ∃ b ∈ ns,
      a.type = NodeType.ORDER ∧ b.type = NodeType.ORDER ∧
      s.i = a.id ∧ s.j = b.id ∧ s.saving = savingValue dist depot a b := by
  rw [calculateSavings_eq_allPairs] at hs
  rcases List.mem_filterMap.mp hs with ⟨p, hp, hf⟩
  rcases mem_allPairs hp with ⟨h1, h2⟩
  by_cases ht : p.1.type = NodeType.ORDER ∧ p.2.type = NodeType.ORDER
  · rw [if_pos ht] at hf
    rcases ht with ⟨ht1, ht2⟩
    rcases Option.some_inj.mp hf with rfl
    exact ⟨p.1, h1, p.2, h2, ht1, ht2, rfl, rfl, rfl⟩
  · rw [if_neg ht] at hf
    exact absurd hf (by simp)

/-- C6: calculateSavings produces exactly one Saving per index pair i < j
of the node list whose two nodes are both ORDER nodes, in the production
order of the double loop, with value
distance(depot, i) + distance(depot, j) - distance(i, j); consequently
every produced Saving has two ORDER nodes of the list as endpoints (never
a VENDOR node), and — calculateSavings being the fixed function of its
arguments given by the first conjunct — the production order is the same
on every run with the same input ordering. -/
theorem calculateSavings_pairs (dist : Coordinate → Coordinate → ℚ)
    (depot : Vehicle) (ns : List NodeV) :
    (calculateSavings dist depot ns =
      (allPairs ns).filterMap fun p =>
        if p.1.type = NodeType.ORDER ∧ p.2.type = NodeType.ORDER then
          some ⟨p.1.id, p.2.id, savingValue dist depot p.1 p.2⟩
        else none) ∧
    ∀ s ∈ calculateSavings dist depot ns, ∃ a ∈ ns, ∃ b ∈ ns,
      a.type = NodeType.ORDER ∧ b.type = NodeType.ORDER ∧
      s.i = a.id ∧ s.j = b.id ∧ s.saving = savingValue dist depot a b :=
  ⟨calculateSavings_eq_allPairs dist depot ns,
   mem_calculateSavings dist depot ns⟩


/-- C4: characterization of the both-assigned-to-different-routes case.
With both endpoints of the saving assigned to distinct Route objects:
(1) when either computed capacity (each orientation's resulting capacity,
newCapacityForRouteI for tail-to-head, newCapacityForRouteJ for the
mirror) is negative, the saving is skipped and the state unchanged;
(2) when neither tail-to-head orientation matches (i last of its route
and j first of the other, or i first and j last), the saving is skipped;
(3) in tail-to-head orientation the sequences are concatenated as
route_i ++ route_j and the corresponding capacity newCapacityForRouteI is
adopted; (4) in the mirror orientation as route_j ++ route_i with
newCapacityForRouteJ adopted.  So routes are concatenated only in
tail-to-head orientation, with the matching orientation's capacity. -/
theorem processSaving_bothAssigned (depot : Vehicle) (ns : List NodeV)
    (st : CWState) (s : Saving) (node_i node_j : NodeV) (ri rj : RouteId)
    (r_i r_j : Route)
    (hni : findNode ns s.i = some node_i) (hnj : findNode ns s.j = some node_j)
    (hri : getRouteId st s.i = some ri) (hrj : getRouteId st s.j = some rj)
    (hne : ri ≠ rj)
    (hli : lookupRoute st ri = some r_i) (hlj : lookupRoute st rj = some r_j) :
    (¬ (0 ≤ r_i.capacityUsed - demandEffect node_j ∧
        0 ≤ r_j.capacityUsed - demandEffect node_i) →
      processSaving depot ns st s = st) ∧
    (¬ ((r_i.nodes.getLast? = some s.i ∧ r_j.nodes.head? = some s.j) ∨
        (r_i.nodes.head? = some s.i ∧ r_j.nodes.getLast? = some s.j)) →
      processSaving depot ns st s = st) ∧
    (0 ≤ r_i.capacityUsed - demandEffect node_j →
     0 ≤ r_j.capacityUsed - demandEffect node_i →
     r_i.nodes.getLast? = some s.i → r_j.nodes.head? = some s.j →
      processSaving depot ns st s =
        ⟨removeRouteId st.routes rj,
         setRoute st.arena ri
           ⟨r_i.nodes ++ r_j.nodes, r_i.capacityUsed - demandEffect node_j,
            r_i.vehicleCapacity⟩,
         (s.j, ri) :: st.nodeToRoute, st.next⟩) ∧
    (0 ≤ r_i.capacityUsed - demandEffect node_j →
     0 ≤ r_j.capacityUsed - demandEffect node_i →
     ¬ (r_i.nodes.getLast? = some s.i ∧ r_j.nodes.head? = some s.j) →
     r_i.nodes.head? = some s.i → r_j.nodes.getLast? = some s.j →
      processSaving depot ns st s =
        ⟨removeRouteId st.routes rj,
         setRoute st.arena ri
           ⟨r_j.nodes ++ r_i.nodes, r_j.capacityUsed - demandEffect node_i,
            r_i.vehicleCapacity⟩,
         (s.i, ri) :: st.nodeToRoute, st.next⟩) := by
  refine ⟨?_, ?_, ?_, ?_⟩
  · intro hcap
    simp only [processSaving, hni, hnj, hri, hrj]
    rw [if_neg hne]
    simp only [hli, hlj]
    rw [if_neg hcap]
  · intro hor
    simp only [processSaving, hni, hnj, hri, hrj]
    rw [if_neg hne]
    simp only [hli, hlj]
    split
    · rw [if_neg (fun h => hor (Or.inl h)), if_neg (fun h => hor (Or.inr h))]
    · rfl
  · intro hci hcj ho1 ho2
    simp only [processSaving, hni, hnj, hri, hrj]
    rw [if_neg hne]
    simp only [hli, hlj]
    rw [if_pos ⟨hci, hcj⟩, if_pos ⟨ho1, ho2⟩]
  · intro hci hcj hn1 ho1 ho2
    simp only [processSaving, hni, hnj, hri, hrj]
    rw [if_neg hne]
    simp only [hli, hlj]
    rw [if_pos ⟨hci, hcj⟩, if_neg hn1, if_pos ⟨ho1, ho2⟩]

/-- Disjunctive characterization of one savings-loop iteration: the state
is unchanged, or a fresh two-node route is appended (with checked
capacity), or an existing route is extended at one end by one saving
endpoint (with checked capacity), or two route records are concatenated
(with checked adopted capacity), re-registering exactly one saving
endpoint. -/
theorem processSaving_cases (depot : Vehicle) (ns : List NodeV) (st : CWState) (s : Saving) :
    processSaving depot ns st s = st ∨
    (∃ cap0 : ℚ, 0 ≤ cap0 ∧
      processSaving depot ns st s =
        ⟨st.routes ++ [st.next],
         st.arena ++ [(st.next, ⟨[s.i, s.j], cap0, vehCapacity depot⟩)],
         (s.j, st.next) :: (s.i, st.next) :: st.nodeToRoute,
         st.next + 1⟩) ∨
    (∃ (rid : RouteId) (r : Route) (newCap : ℚ) (newId : IDType)
        (newNodes : List IDType),
      lookupRoute st rid = some r ∧ 0 ≤ newCap ∧
      (newId = s.i ∨ newId = s.j) ∧
      (newNodes = newId :: r.nodes ∨ newNodes = r.nodes ++ [newId]) ∧
      processSaving depot ns st s =
        ⟨st.routes,
         setRoute st.arena rid ⟨newNodes, newCap, r.vehicleCapacity⟩,
         (newId, rid) :: st.nodeToRoute, st.next⟩) ∨
    (∃ (ri rj : RouteId) (r_i r_j : Route) (newCap : ℚ) (regId : IDType)
        (newNodes : List IDType),
      lookupRoute st ri = some r_i ∧ lookupRoute st rj = some r_j ∧
      0 ≤ newCap ∧ (regId = s.i ∨ regId = s.j) ∧
      (newNodes = r_i.nodes ++ r_j.nodes ∨ newNodes = r_j.nodes ++ r_i.nodes) ∧
      processSaving depot ns st s =
        ⟨removeRouteId st.routes rj,
         setRoute st.arena ri ⟨newNodes, newCap, r_i.vehicleCapacity⟩,
         (regId, ri) :: st.nodeToRoute, st.next⟩) := by
  unfold processSaving
  split
  next node_i node_j hni hnj =>
    split
    · dsimp only
      split
      next h => exact Or.inr (Or.inl ⟨_, h, rfl⟩)
      next h => exact Or.inl rfl
    · next ri hri hrj =>
      split
      next r hr =>
        dsimp only
        split
        next h =>
          refine Or.inr (Or.inr (Or.inl ⟨ri, r, _, s.j, _, hr, h, Or.inr rfl, ?_, rfl⟩))
          split
          · exact Or.inl rfl
          · exact Or.inr rfl
        next h => exact Or.inl rfl
      next => exact Or.inl rfl
    · next rj hri hrj =>
      split
      next r hr =>
        dsimp only
        split
        next h =>
          refine Or.inr (Or.inr (Or.inl ⟨rj, r, _, s.i, _, hr, h, Or.inl rfl, ?_, rfl⟩))
          split
          · exact Or.inl rfl
          · exact Or.inr rfl
        next h => exact Or.inl rfl
      next => exact Or.inl rfl
    · next ri rj hri hrj =>
      split
      · exact Or.inl rfl
      · split
        next r_i r_j hli hlj =>
          dsimp only
          split
          next hcap =>
            split
            next ho =>
              exact Or.inr (Or.inr (Or.inr
                ⟨ri, rj, r_i, r_j, _, s.j, _, hli, hlj, hcap.1, Or.inr rfl, Or.inl rfl, rfl⟩))
            next ho =>
              split
              next ho2 =>
                exact Or.inr (Or.inr (Or.inr
                  ⟨ri, rj, r_i, r_j, _, s.i, _, hli, hlj, hcap.2, Or.inl rfl, Or.inr rfl, rfl⟩))
              next => exact Or.inl rfl
          next => exact Or.inl rfl
        next => exact Or.inl rfl
        next => exact Or.inl rfl
        next => exact Or.inl rfl
  next => exact Or.inl rfl
  next => exact Or.inl rfl
  next => exact Or.inl rfl

/-- Disjunctive characterization of one fallback-loop iteration: the state
is unchanged, or a fresh singleton route with non-negative capacityUsed is
appended and the node registered. -/
theorem fallback_cases (depot : Vehicle) (st : CWState) (n : NodeV) :
    fallback depot st n = st ∨
    (∃ newCap : ℚ, 0 ≤ newCap ∧
      fallback depot st n =
        ⟨st.routes ++ [st.next],
         st.arena ++ [(st.next, ⟨[n.id], newCap, vehCapacity depot⟩)],
         (n.id, st.next) :: st.nodeToRoute, st.next + 1⟩) := by
  unfold fallback
  split
  · exact Or.inl rfl
  · split
    next h =>
      refine Or.inr ⟨_, ?_, rfl⟩
      linarith [h.2]
    · split
      next h =>
        refine Or.inr ⟨_, ?_, rfl⟩
        have h2 := h.2
        rw [ratAbs_eq_abs] at h2
        have := (abs_le.mp h2).1
        linarith
      · exact Or.inl rfl

theorem mem_setRoute {ar : List (RouteId × Route)} {rid : RouteId} {r : Route}
    {pr : RouteId × Route} (h : pr ∈ setRoute ar rid r) : pr ∈ ar ∨ pr = (rid, r) := by
  unfold setRoute at h
  rcases List.mem_map.mp h with ⟨q, hq, he⟩
  by_cases hc : q.1 == rid
  · rw [if_pos hc] at he
    exact Or.inr he.symm
  · rw [if_neg hc] at he
    exact Or.inl (he ▸ hq)

theorem lookupArena_mem {ar : List (RouteId × Route)} {rid : RouteId} {r : Route}
    (h : lookupArena ar rid = some r) : (rid, r) ∈ ar := by
  unfold lookupArena at h
  cases hf : ar.find? (fun p => p.fst == rid) with
  | none => rw [hf] at h ; exact absurd h (by simp)
  | some q =>
    rw [hf] at h
    have hm := List.mem_of_find?_eq_some hf
    have hp : q.fst = rid := by
      have := List.find?_some hf
      exact beq_iff_eq.mp this
    have hq2 : q.snd = r := by simpa using h
    have : q = (rid, r) := Prod.ext hp hq2
    exact this ▸ hm

theorem foldl_preserves {α β : Type} {P : β → Prop} {f : β → α → β} :
    ∀ (l : List α) (b : β), P b →
      (∀ b2 a, a ∈ l → P b2 → P (f b2 a)) → P (l.foldl f b)
  | [], _, hb, _ => hb
  | a :: l, b, hb, hstep =>
    foldl_preserves l (f b a) (hstep b a (List.mem_cons_self a l) hb)
      (fun b2 a2 ha2 => hstep b2 a2 (List.mem_cons_of_mem a ha2))

theorem capInv_initState : capInv initState := by
  intro pr hpr
  exact absurd hpr (List.not_mem_nil pr)

theorem capInv_processSaving (depot : Vehicle) (ns : List NodeV) (st : CWState)
    (s : Saving) (h : capInv st) : capInv (processSaving depot ns st s) := by
  rcases processSaving_cases depot ns st s with
    he | ⟨c, hc, he⟩ | ⟨rid, r, nc, ni, nn, _, hc, _, _, he⟩ |
    ⟨ri, rj, r_i, r_j, nc, gid, nn, _, _, hc, _, _, he⟩
  · rw [he] ; exact h
  · rw [he]
    intro pr hpr
    rcases List.mem_append.mp hpr with hp | hp
    · exact h pr hp
    · rcases List.mem_singleton.mp hp with rfl
      exact hc
  · rw [he]
    intro pr hpr
    rcases mem_setRoute hpr with hp | rfl
    · exact h pr hp
    · exact hc
  · rw [he]
    intro pr hpr
    rcases mem_setRoute hpr with hp | rfl
    · exact h pr hp
    · exact hc

theorem capInv_fallback (depot : Vehicle) (st : CWState) (n : NodeV)
    (h : capInv st) : capInv (fallback depot st n) := by
  rcases fallback_cases depot st n with he | ⟨c, hc, he⟩
  · rw [he] ; exact h
  · rw [he]
    intro pr hpr
    rcases List.mem_append.mp hpr with hp | hp
    · exact h pr hp
    · rcases List.mem_singleton.mp hp with rfl
      exact hc

theorem capInv_clarkWrightState (dist : Coordinate → Coordinate → ℚ)
    (depot : Vehicle) (ns : List NodeV) : capInv (clarkWrightState dist depot ns) := by
  unfold clarkWrightState savingsPhase
  exact foldl_preserves ns _
    (foldl_preserves _ initState capInv_initState
      (fun b2 a _ hb => capInv_processSaving depot ns b2 a hb))
    (fun b2 a _ hb => capInv_fallback depot b2 a hb)
/-- C5: throughout a clarkWright run and in its result every Route record
has capacityUsed ≥ 0, and every guarded mutation whose computed resulting
capacity is negative is rejected with the whole state (hence every
existing Route's node sequence and capacityUsed) left unchanged.  The
conjuncts: (1) every returned route has capacityUsed ≥ 0; (2) after any
prefix of the ranked savings list every allocated Route record has
capacityUsed ≥ 0; (3) likewise after any prefix of the fallback loop;
(4) a tentative pairing with negative resulting capacity leaves the state
unchanged; (5), (6) an endpoint attachment with negative resulting
capacity leaves the state unchanged (either orientation of the assigned
endpoint); (7) a concatenation where either computed capacity is negative
leaves the state unchanged. -/
theorem clarkWright_capacityUsed_nonneg (dist : Coordinate → Coordinate → ℚ)
    (depot : Vehicle) (ns : List NodeV) :
    (∀ r ∈ clarkWright dist depot ns, 0 ≤ r.capacityUsed) ∧
    (∀ l1 l2, sortSavingsDesc (calculateSavings dist depot ns) = l1 ++ l2 →
      capInv (l1.foldl (processSaving depot ns) initState)) ∧
    (∀ l1 l2, ns = l1 ++ l2 →
      capInv (l1.foldl (fallback depot) (savingsPhase dist depot ns))) ∧
    (∀ st (s : Saving) node_i node_j,
      findNode ns s.i = some node_i → findNode ns s.j = some node_j →
      getRouteId st s.i = none → getRouteId st s.j = none →
      vehCapacity depot - demandEffect node_i - demandEffect node_j < 0 →
      processSaving depot ns st s = st) ∧
    (∀ st (s : Saving) node_i node_j ri r,
      findNode ns s.i = some node_i → findNode ns s.j = some node_j →
      getRouteId st s.i = some ri → getRouteId st s.j = none →
      lookupRoute st ri = some r →
      r.capacityUsed - demandEffect node_j < 0 →
      processSaving depot ns st s = st) ∧
    (∀ st (s : Saving) node_i node_j rj r,
      findNode ns s.i = some node_i → findNode ns s.j = some node_j →
      getRouteId st s.i = none → getRouteId st s.j = some rj →
      lookupRoute st rj = some r →
      r.capacityUsed - demandEffect node_i < 0 →
      processSaving depot ns st s = st) ∧
    (∀ st (s : Saving) node_i node_j ri rj r_i r_j,
      findNode ns s.i = some node_i → findNode ns s.j = some node_j →
      getRouteId st s.i = some ri → getRouteId st s.j = some rj → ri ≠ rj →
      lookupRoute st ri = some r_i → lookupRoute st rj = some r_j →
      (r_i.capacityUsed - demandEffect node_j < 0 ∨
       r_j.capacityUsed - demandEffect node_i < 0) →
      processSaving depot ns st s = st) := by
  refine ⟨?_, ?_, ?_, ?_, ?_, ?_, ?_⟩
  · intro r hr
    unfold clarkWright at hr
    rcases List.mem_filterMap.mp hr with ⟨rid, _, hl⟩
    exact capInv_clarkWrightState dist depot ns (rid, r) (lookupArena_mem hl)
  · intro l1 l2 _
    exact foldl_preserves l1 initState capInv_initState
      (fun b2 a _ hb => capInv_processSaving depot ns b2 a hb)
  · intro l1 l2 _
    refine foldl_preserves l1 _ ?_ (fun b2 a _ hb => capInv_fallback depot b2 a hb)
    unfold savingsPhase
    exact foldl_preserves _ initState capInv_initState
      (fun b2 a _ hb => capInv_processSaving depot ns b2 a hb)
  · intro st s node_i node_j hni hnj hri hrj hneg
    simp only [processSaving, hni, hnj, hri, hrj]
    rw [if_neg (not_le.mpr hneg)]
  · intro st s node_i node_j ri r hni hnj hri hrj hlr hneg
    simp only [processSaving, hni, hnj, hri, hrj, hlr]
    rw [if_neg (not_le.mpr hneg)]
  · intro st s node_i node_j rj r hni hnj hri hrj hlr hneg
    simp only [processSaving, hni, hnj, hri, hrj, hlr]
    rw [if_neg (not_le.mpr hneg)]
  · intro st s node_i node_j ri rj r_i r_j hni hnj hri hrj hne hli hlj hneg
    simp only [processSaving, hni, hnj, hri, hrj]
    rw [if_neg hne]
    simp only [hli, hlj]
    rw [if_neg ?_]
    rintro ⟨h1, h2⟩
    rcases hneg with h | h
    · exact absurd h1 (not_le.mpr h)
    · exact absurd h2 (not_le.mpr h)

theorem lookupNTR_cons (y : IDType) (rid : RouteId) (m : List (IDType × RouteId))
    (x : IDType) :
    lookupNTR ((y, rid) :: m) x = if y == x then some rid else lookupNTR m x := by
  unfold lookupNTR
  by_cases h : y == x
  · rw [List.find?_cons_of_pos _ (by simpa using h), if_pos h]
    rfl
  · rw [List.find?_cons_of_neg _ (by simpa using h), if_neg h]

theorem getRouteId_isSome_fallback (depot : Vehicle) (st : CWState) (n : NodeV)
    (x : IDType) (h : (getRouteId st x).isSome) :
    (getRouteId (fallback depot st n) x).isSome := by
  rcases fallback_cases depot st n with he | ⟨c, _, he⟩ <;> rw [he]
  · exact h
  · show (lookupNTR ((n.id, st.next) :: st.nodeToRoute) x).isSome
    rw [lookupNTR_cons]
    split
    · rfl
    · exact h

theorem getRouteId_isSome_fallback_foldl (depot : Vehicle) (l : List NodeV)
    (st : CWState) (x : IDType) (h : (getRouteId st x).isSome) :
    (getRouteId (l.foldl (fallback depot) st) x).isSome :=
  foldl_preserves l st h (fun b2 a _ hb => getRouteId_isSome_fallback depot b2 a x hb)

theorem getRouteId_fallback_self (depot : Vehicle) (st : CWState) (n : NodeV)
    (h0 : getRouteId st n.id = none) (hf : fitsDemand depot n) :
    (getRouteId (fallback depot st n) n.id).isSome := by
  have hfalse : (getRouteId st n.id).isSome = false := by rw [h0] ; rfl
  rcases hf with ⟨ht, hd⟩ | ⟨ht, hd⟩
  · unfold fallback
    rw [hfalse]
    simp only [Bool.false_eq_true, if_false]
    rw [if_pos ⟨ht, hd⟩]
    show (lookupNTR ((n.id, st.next) :: st.nodeToRoute) n.id).isSome
    rw [lookupNTR_cons, if_pos (by simp)]
    rfl
  · unfold fallback
    rw [hfalse]
    simp only [Bool.false_eq_true, if_false]
    rw [if_neg (fun hc => by rw [ht] at hc ; exact absurd hc.1 (by simp)),
        if_pos ⟨ht, hd⟩]
    show (lookupNTR ((n.id, st.next) :: st.nodeToRoute) n.id).isSome
    rw [lookupNTR_cons, if_pos (by simp)]
    rfl

theorem fallback_fold_complete (depot : Vehicle) :
    ∀ (l : List NodeV) (st : CWState) (n : NodeV), n ∈ l →
      getRouteId (l.foldl (fallback depot) st) n.id = none →
      ¬ fitsDemand depot n := by
  intro l
  induction l with
  | nil => intro st n hn ; cases hn
  | cons m l2 ih =>
    intro st n hn hnone hf
    rcases List.mem_cons.mp hn with rfl | hn2
    · by_cases h0 : (getRouteId st n.id).isSome
      · have h1 := getRouteId_isSome_fallback depot st n n.id h0
        have h2 := getRouteId_isSome_fallback_foldl depot l2 _ n.id h1
        rw [List.foldl_cons] at hnone
        rw [hnone] at h2
        exact absurd h2 (by simp)
      · have h0n : getRouteId st n.id = none := by
          cases hg : getRouteId st n.id
          · rfl
          · rw [hg] at h0 ; exact absurd rfl h0
        have h1 := getRouteId_fallback_self depot st n h0n hf
        have h2 := getRouteId_isSome_fallback_foldl depot l2 _ n.id h1
        rw [List.foldl_cons] at hnone
        rw [hnone] at h2
        exact absurd h2 (by simp)
    · exact ih (fallback depot st m) n hn2 (by rw [List.foldl_cons] at hnone ; exact hnone) hf

/-- C7: characterization of the fallback loop.  (1) A node already bound
in nodeToRoute is skipped.  (2) An unassigned ORDER node with
demand ≤ capacity receives a fresh one-node Route with
capacityUsed = capacity - demand.  (3) An unassigned VENDOR node with
|demand| ≤ capacity receives a fresh one-node Route with
capacityUsed = capacity + demand.  (4) An unassigned node whose demand
does not fit receives nothing: the state is unchanged.  (5) Completeness:
a node of the input list that is still unassigned after the whole run
necessarily has unfitting demand — so every never-assigned node whose
demand fits received a fallback Route. -/
theorem clarkWright_fallback_characterization (dist : Coordinate → Coordinate → ℚ)
    (depot : Vehicle) (ns : List NodeV) :
    (∀ st (n : NodeV), (getRouteId st n.id).isSome → fallback depot st n = st) ∧
    (∀ st (n : NodeV), getRouteId st n.id = none →
      n.type = NodeType.ORDER → n.demand ≤ vehCapacity depot →
      fallback depot st n =
        ⟨st.routes ++ [st.next],
         st.arena ++ [(st.next,
           ⟨[n.id], vehCapacity depot - n.demand, vehCapacity depot⟩)],
         (n.id, st.next) :: st.nodeToRoute, st.next + 1⟩) ∧
    (∀ st (n : NodeV), getRouteId st n.id = none →
      n.type = NodeType.VENDOR → ratAbs n.demand ≤ vehCapacity depot →
      fallback depot st n =
        ⟨st.routes ++ [st.next],
         st.arena ++ [(st.next,
           ⟨[n.id], vehCapacity depot + n.demand, vehCapacity depot⟩)],
         (n.id, st.next) :: st.nodeToRoute, st.next + 1⟩) ∧
    (∀ st (n : NodeV), getRouteId st n.id = none → ¬ fitsDemand depot n →
      fallback depot st n = st) ∧
    (∀ n ∈ ns, getRouteId (clarkWrightState dist depot ns) n.id = none →
      ¬ fitsDemand depot n) := by
  refine ⟨?_, ?_, ?_, ?_, ?_⟩
  · intro st n h
    unfold fallback
    rw [h]
    rfl
  · intro st n h0 ht hd
    have hfalse : (getRouteId st n.id).isSome = false := by rw [h0] ; rfl
    unfold fallback
    rw [hfalse]
    simp only [Bool.false_eq_true, if_false]
    rw [if_pos ⟨ht, hd⟩]
  · intro st n h0 ht hd
    have hfalse : (getRouteId st n.id).isSome = false := by rw [h0] ; rfl
    unfold fallback
    rw [hfalse]
    simp only [Bool.false_eq_true, if_false]
    rw [if_neg (fun hc => by rw [ht] at hc ; exact absurd hc.1 (by simp)),
        if_pos ⟨ht, hd⟩]
  · intro st n h0 hnf
    have hfalse : (getRouteId st n.id).isSome = false := by rw [h0] ; rfl
    unfold fallback
    rw [hfalse]
    simp only [Bool.false_eq_true, if_false]
    rw [if_neg (fun h => hnf (Or.inl h)), if_neg (fun h => hnf (Or.inr h))]
  · intro n hn hnone
    exact fallback_fold_complete depot ns (savingsPhase dist depot ns) n hn hnone

theorem lookupNTR_isSome_cons (y : IDType) (rid : RouteId)
    (m : List (IDType × RouteId)) (x : IDType)
    (h : (lookupNTR m x).isSome) : (lookupNTR ((y, rid) :: m) x).isSome := by
  rw [lookupNTR_cons]
  split
  · rfl
  · exact h

theorem lookupNTR_cons_self (x : IDType) (rid : RouteId)
    (m : List (IDType × RouteId)) : (lookupNTR ((x, rid) :: m) x).isSome := by
  rw [lookupNTR_cons, if_pos (by simp)]
  rfl

theorem regInv_initState : regInv initState := by
  intro pr hpr
  exact absurd hpr (List.not_mem_nil pr)

theorem regInv_processSaving (depot : Vehicle) (ns : List NodeV) (st : CWState)
    (s : Saving) (h : regInv st) : regInv (processSaving depot ns st s) := by
  rcases processSaving_cases depot ns st s with
    he | ⟨c, hc, he⟩ | ⟨rid, r, nc, ni, nn, hr, hc, hid, hnn, he⟩ |
    ⟨ri, rj, r_i, r_j, nc, gid, nn, hri, hrj, hc, hid, hnn, he⟩
  · rw [he] ; exact h
  · rw [he]
    intro pr hpr x hx
    rcases List.mem_append.mp hpr with hp | hp
    · exact lookupNTR_isSome_cons _ _ _ _
        (lookupNTR_isSome_cons _ _ _ _ (h pr hp x hx))
    · rcases List.mem_singleton.mp hp with rfl
      rcases List.mem_cons.mp hx with rfl | hx2
      · exact lookupNTR_isSome_cons _ _ _ _ (lookupNTR_cons_self _ _ _)
      · rcases List.mem_singleton.mp hx2 with rfl
        exact lookupNTR_cons_self _ _ _
  · rw [he]
    intro pr hpr x hx
    rcases mem_setRoute hpr with hp | rfl
    · exact lookupNTR_isSome_cons _ _ _ _ (h pr hp x hx)
    · have hmem : x = ni ∨ x ∈ r.nodes := by
        rcases hnn with rfl | rfl
        · rcases List.mem_cons.mp hx with rfl | hx2
          · exact Or.inl rfl
          · exact Or.inr hx2
        · rcases List.mem_append.mp hx with hx2 | hx2
          · exact Or.inr hx2
          · exact Or.inl (List.mem_singleton.mp hx2)
      rcases hmem with rfl | hx2
      · exact lookupNTR_cons_self _ _ _
      · exact lookupNTR_isSome_cons _ _ _ _ (h _ (lookupArena_mem hr) x hx2)
  · rw [he]
    intro pr hpr x hx
    rcases mem_setRoute hpr with hp | rfl
    · exact lookupNTR_isSome_cons _ _ _ _ (h pr hp x hx)
    · have hmem : x ∈ r_i.nodes ∨ x ∈ r_j.nodes := by
        rcases hnn with rfl | rfl
        · rcases List.mem_append.mp hx with hx2 | hx2
          · exact Or.inl hx2
          · exact Or.inr hx2
        · rcases List.mem_append.mp hx with hx2 | hx2
          · exact Or.inr hx2
          · exact Or.inl hx2
      rcases hmem with hx2 | hx2
      · exact lookupNTR_isSome_cons _ _ _ _ (h _ (lookupArena_mem hri) x hx2)
      · exact lookupNTR_isSome_cons _ _ _ _ (h _ (lookupArena_mem hrj) x hx2)

theorem regInv_fallback (depot : Vehicle) (st : CWState) (n : NodeV)
    (h : regInv st) : regInv (fallback depot st n) := by
  rcases fallback_cases depot st n with he | ⟨c, hc, he⟩
  · rw [he] ; exact h
  · rw [he]
    intro pr hpr x hx
    rcases List.mem_append.mp hpr with hp | hp
    · exact lookupNTR_isSome_cons _ _ _ _ (h pr hp x hx)
    · rcases List.mem_singleton.mp hp with rfl
      rcases List.mem_singleton.mp hx with rfl
      exact lookupNTR_cons_self _ _ _

theorem regInv_clarkWrightState (dist : Coordinate → Coordinate → ℚ)
    (depot : Vehicle) (ns : List NodeV) : regInv (clarkWrightState dist depot ns) := by
  unfold clarkWrightState savingsPhase
  exact foldl_preserves ns _
    (foldl_preserves _ initState regInv_initState
      (fun b2 a _ hb => regInv_processSaving depot ns b2 a hb))
    (fun b2 a _ hb => regInv_fallback depot b2 a hb)

theorem fallback_eq_of_unfit (depot : Vehicle) (st : CWState) (n : NodeV)
    (h0 : getRouteId st n.id = none) (hnf : ¬ fitsDemand depot n) :
    fallback depot st n = st := by
  have hfalse : (getRouteId st n.id).isSome = false := by rw [h0] ; rfl
  unfold fallback
  rw [hfalse]
  simp only [Bool.false_eq_true, if_false]
  rw [if_neg (fun h => hnf (Or.inl h)), if_neg (fun h => hnf (Or.inr h))]

theorem fallback_foldl_none (depot : Vehicle) (nid : IDType) :
    ∀ (l : List NodeV) (st : CWState), getRouteId st nid = none →
      (∀ m ∈ l, m.id = nid → ¬ fitsDemand depot m) →
      getRouteId (l.foldl (fallback depot) st) nid = none := by
  intro l
  induction l with
  | nil => intro st h _ ; exact h
  | cons m l2 ih =>
    intro st h hl
    rw [List.foldl_cons]
    by_cases hm : m.id = nid
    · have hst : fallback depot st m = st := by
        apply fallback_eq_of_unfit depot st m (by rw [hm] ; exact h)
        exact hl m (List.mem_cons_self m l2) hm
      rw [hst]
      exact ih st h (fun m2 hm2 => hl m2 (List.mem_cons_of_mem m hm2))
    · have hstep : getRouteId (fallback depot st m) nid = none := by
        rcases fallback_cases depot st m with he | ⟨c, _, he⟩ <;> rw [he]
        · exact h
        · show lookupNTR ((m.id, st.next) :: st.nodeToRoute) nid = none
          rw [lookupNTR_cons, if_neg (by simpa using hm)]
          exact h
      exact ih _ hstep (fun m2 hm2 => hl m2 (List.mem_cons_of_mem m hm2))

/-- C8 amended: a node whose bindings all fail the demand test (in
particular a node whose solitary demand magnitude exceeds the depot's
capacity) and that is still unassigned after the savings loop stays
unassigned through the fallback loop and is absent from every returned
Route — clarkWright silently drops it, with no surfaced condition (the
return value is only the route list). -/
theorem clarkWright_overcapacity_silent_drop (dist : Coordinate → Coordinate → ℚ)
    (depot : Vehicle) (ns : List NodeV) (n : NodeV)
    (hover : ∀ m ∈ ns, m.id = n.id → ¬ fitsDemand depot m)
    (hun : getRouteId (savingsPhase dist depot ns) n.id = none) :
    getRouteId (clarkWrightState dist depot ns) n.id = none ∧
    ∀ r ∈ clarkWright dist depot ns, n.id ∉ r.nodes := by
  have h1 : getRouteId (clarkWrightState dist depot ns) n.id = none := by
    unfold clarkWrightState
    exact fallback_foldl_none depot n.id ns _ hun hover
  refine ⟨h1, ?_⟩
  intro r hr hx
  unfold clarkWright at hr
  rcases List.mem_filterMap.mp hr with ⟨rid, _, hl⟩
  have := regInv_clarkWrightState dist depot ns (rid, r) (lookupArena_mem hl) n.id hx
  rw [show lookupNTR (clarkWrightState dist depot ns).nodeToRoute n.id =
        getRouteId (clarkWrightState dist depot ns) n.id from rfl, h1] at this
  exact absurd this (by simp)

theorem mem_insertSavingDesc (s s2 : Saving) :
    ∀ (l : List Saving), s2 ∈ insertSavingDesc s l ↔ s2 = s ∨ s2 ∈ l := by
  intro l
  induction l with
  | nil => simp [insertSavingDesc]
  | cons t ts ih =>
    unfold insertSavingDesc
    split
    · simp
    · rw [List.mem_cons, ih, List.mem_cons]
      tauto

theorem mem_sortSavingsDesc (s : Saving) :
    ∀ (l : List Saving), s ∈ sortSavingsDesc l ↔ s ∈ l := by
  intro l
  induction l with
  | nil => simp [sortSavingsDesc]
  | cons t ts ih =>
    unfold sortSavingsDesc
    rw [mem_insertSavingDesc, ih, List.mem_cons]

theorem mentions_processSaving (depot : Vehicle) (ns : List NodeV)
    (sl : List Saving) (st : CWState) (s : Saving) (hs : s ∈ sl)
    (h : (∀ p ∈ st.nodeToRoute, savingMentions sl p.1) ∧
         (∀ pr ∈ st.arena, ∀ x ∈ pr.2.nodes, savingMentions sl x)) :
    (∀ p ∈ (processSaving depot ns st s).nodeToRoute, savingMentions sl p.1) ∧
    (∀ pr ∈ (processSaving depot ns st s).arena, ∀ x ∈ pr.2.nodes,
      savingMentions sl x) := by
  rcases h with ⟨h1, h2⟩
  have hsi : savingMentions sl s.i := ⟨s, hs, Or.inl rfl⟩
  have hsj : savingMentions sl s.j := ⟨s, hs, Or.inr rfl⟩
  rcases processSaving_cases depot ns st s with
    he | ⟨c, hc, he⟩ | ⟨rid, r, nc, ni, nn, hr, hc, hid, hnn, he⟩ |
    ⟨ri, rj, r_i, r_j, nc, gid, nn, hri, hrj, hc, hid, hnn, he⟩
  · rw [he] ; exact ⟨h1, h2⟩
  · rw [he]
    constructor
    · intro p hp
      rcases List.mem_cons.mp hp with rfl | hp2
      · exact hsj
      · rcases List.mem_cons.mp hp2 with rfl | hp3
        · exact hsi
        · exact h1 p hp3
    · intro pr hpr x hx
      rcases List.mem_append.mp hpr with hp | hp
      · exact h2 pr hp x hx
      · rcases List.mem_singleton.mp hp with rfl
        rcases List.mem_cons.mp hx with rfl | hx2
        · exact hsi
        · rcases List.mem_singleton.mp hx2 with rfl
          exact hsj
  · rw [he]
    have hni : savingMentions sl ni := by
      rcases hid with rfl | rfl
      · exact hsi
      · exact hsj
    constructor
    · intro p hp
      rcases List.mem_cons.mp hp with rfl | hp2
      · exact hni
      · exact h1 p hp2
    · intro pr hpr x hx
      rcases mem_setRoute hpr with hp | rfl
      · exact h2 pr hp x hx
      · have hmem : x = ni ∨ x ∈ r.nodes := by
          rcases hnn with rfl | rfl
          · rcases List.mem_cons.mp hx with rfl | hx2
            · exact Or.inl rfl
            · exact Or.inr hx2
          · rcases List.mem_append.mp hx with hx2 | hx2
            · exact Or.inr hx2
            · exact Or.inl (List.mem_singleton.mp hx2)
        rcases hmem with rfl | hx2
        · exact hni
        · exact h2 _ (lookupArena_mem hr) x hx2
  · rw [he]
    have hgid : savingMentions sl gid := by
      rcases hid with rfl | rfl
      · exact hsi
      · exact hsj
    constructor
    · intro p hp
      rcases List.mem_cons.mp hp with rfl | hp2
      · exact hgid
      · exact h1 p hp2
    · intro pr hpr x hx
      rcases mem_setRoute hpr with hp | rfl
      · exact h2 pr hp x hx
      · have hmem : x ∈ r_i.nodes ∨ x ∈ r_j.nodes := by
          rcases hnn with rfl | rfl
          · exact List.mem_append.mp hx
          · exact (List.mem_append.mp hx).symm
        rcases hmem with hx2 | hx2
        · exact h2 _ (lookupArena_mem hri) x hx2
        · exact h2 _ (lookupArena_mem hrj) x hx2

theorem savingsPhase_mentions (dist : Coordinate → Coordinate → ℚ)
    (depot : Vehicle) (ns : List NodeV) :
    (∀ p ∈ (savingsPhase dist depot ns).nodeToRoute,
      savingMentions (sortSavingsDesc (calculateSavings dist depot ns)) p.1) ∧
    (∀ pr ∈ (savingsPhase dist depot ns).arena, ∀ x ∈ pr.2.nodes,
      savingMentions (sortSavingsDesc (calculateSavings dist depot ns)) x) := by
  unfold savingsPhase
  refine foldl_preserves _ initState ⟨?_, ?_⟩
    (fun b2 a ha hb => mentions_processSaving depot ns _ b2 a ha hb)
  · intro p hp ; exact absurd hp (List.not_mem_nil p)
  · intro pr hpr ; exact absurd hpr (List.not_mem_nil pr)

theorem clarkWrightState_arena_nodes (dist : Coordinate → Coordinate → ℚ)
    (depot : Vehicle) (ns : List NodeV) :
    ∀ pr ∈ (clarkWrightState dist depot ns).arena,
      (∀ x ∈ pr.2.nodes,
        savingMentions (sortSavingsDesc (calculateSavings dist depot ns)) x) ∨
      (∃ m ∈ ns, pr.2.nodes = [m.id]) := by
  unfold clarkWrightState
  refine @foldl_preserves NodeV CWState
    (fun st => ∀ pr ∈ st.arena,
      (∀ x ∈ pr.2.nodes,
        savingMentions (sortSavingsDesc (calculateSavings dist depot ns)) x) ∨
      (∃ m ∈ ns, pr.2.nodes = [m.id]))
    (fallback depot) ns (savingsPhase dist depot ns) ?_ ?_
  · intro pr hpr
    exact Or.inl ((savingsPhase_mentions dist depot ns).2 pr hpr)
  · intro b2 a ha hb
    rcases fallback_cases depot b2 a with he | ⟨c, hc, he⟩ <;> rw [he]
    · exact hb
    · intro pr hpr
      rcases List.mem_append.mp hpr with hp | hp
      · exact hb pr hp
      · rcases List.mem_singleton.mp hp with rfl
        exact Or.inr ⟨a, ha, rfl⟩

theorem vendor_singleton_core (dist : Coordinate → Coordinate → ℚ)
    (depot : Vehicle) (ns : List NodeV) (hnd : (ns.map NodeV.id).Nodup)
    (v : NodeV) (hv : v ∈ ns) (hvt : v.type = NodeType.VENDOR)
    (r : Route) (hr : r ∈ clarkWright dist depot ns) (hx : v.id ∈ r.nodes) :
    r.nodes = [v.id] := by
  unfold clarkWright at hr
  rcases List.mem_filterMap.mp hr with ⟨rid, _, hl⟩
  rcases clarkWrightState_arena_nodes dist depot ns (rid, r) (lookupArena_mem hl) with
    hleft | ⟨m, hm, hnodes⟩
  · exfalso
    rcases hleft v.id hx with ⟨s, hs, hio⟩
    have hs2 : s ∈ calculateSavings dist depot ns := (mem_sortSavingsDesc s _).mp hs
    rcases mem_calculateSavings dist depot ns s hs2 with
      ⟨a, ha, b, hb, hat, hbt, hsi, hsj, _⟩
    have hinj := List.inj_on_of_nodup_map hnd
    rcases hio with hvi | hvj
    · have : a = v := hinj ha hv (by rw [← hsi, ← hvi])
      rw [this, hvt] at hat
      exact absurd hat (by simp)
    · have : b = v := hinj hb hv (by rw [← hsj, ← hvj])
      rw [this, hvt] at hbt
      exact absurd hbt (by simp)
  · rw [hnodes] at hx ⊢
    rw [List.mem_singleton.mp hx]
theorem mapGet_mem {α : Type} {m : List (IDType × α)} {k : IDType} {v : α}
    (h : mapGet m k = some v) : (k, v) ∈ m := by
  unfold mapGet at h
  cases hf : m.find? (fun p => p.fst == k) with
  | none => rw [hf] at h ; exact absurd h (by simp)
  | some q =>
    rw [hf] at h
    have hm := List.mem_of_find?_eq_some hf
    have hp : q.fst = k := by
      have := List.find?_some hf
      exact beq_iff_eq.mp this
    have hq2 : q.snd = v := by simpa using h
    have : q = (k, v) := Prod.ext hp hq2
    exact this ▸ hm

theorem mem_mapSet {α : Type} {m : List (IDType × α)} {k : IDType} {v : α}
    {pr : IDType × α} (h : pr ∈ mapSet m k v) : pr ∈ m ∨ pr = (k, v) := by
  unfold mapSet at h
  split at h
  · rcases List.mem_map.mp h with ⟨q, hq, he⟩
    by_cases hc : q.1 == k
    · rw [if_pos hc] at he
      exact Or.inr he.symm
    · rw [if_neg hc] at he
      exact Or.inl (he ▸ hq)
  · rcases List.mem_append.mp h with hp | hp
    · exact Or.inl hp
    · exact Or.inr (List.mem_singleton.mp hp)

theorem routeWithinClusters_provenance (dist : Coordinate → Coordinate → ℚ)
    (depotList : List Vehicle) (dcs : List (IDType × List VendorOrderCluster)) :
    ∀ pr ∈ routeWithinClusters dist depotList dcs, ∀ r ∈ pr.2,
      ∃ dep ∈ depotList, ∃ clusters,
        mapGet dcs (IDType.num dep.id) = some clusters ∧
        ∃ c ∈ clusters, r ∈ clarkWright dist dep (c.vendor :: c.orders) := by
  unfold routeWithinClusters
  refine @foldl_preserves Vehicle (List (IDType × List Route))
    (fun m => ∀ pr ∈ m, ∀ r ∈ pr.2,
      ∃ dep ∈ depotList, ∃ clusters,
        mapGet dcs (IDType.num dep.id) = some clusters ∧
        ∃ c ∈ clusters, r ∈ clarkWright dist dep (c.vendor :: c.orders))
    _ depotList [] ?_ ?_
  · intro pr hpr
    exact absurd hpr (List.not_mem_nil pr)
  · intro b2 depot hd hb
    dsimp only
    split
    next clusters hmg =>
      intro pr hpr r hr
      rcases mem_mapSet hpr with hp | rfl
      · exact hb pr hp r hr
      · have hval : ∀ r2 ∈ clusters.foldl
            (fun allRoutesForDepot cluster =>
              allRoutesForDepot ++
                clarkWright dist depot (cluster.vendor :: cluster.orders)) [],
            ∃ dep ∈ depotList, ∃ cl2,
              mapGet dcs (IDType.num dep.id) = some cl2 ∧
              ∃ c ∈ cl2, r2 ∈ clarkWright dist dep (c.vendor :: c.orders) := by
          refine @foldl_preserves VendorOrderCluster (List Route)
            (fun acc => ∀ r2 ∈ acc,
              ∃ dep ∈ depotList, ∃ cl2,
                mapGet dcs (IDType.num dep.id) = some cl2 ∧
                ∃ c ∈ cl2, r2 ∈ clarkWright dist dep (c.vendor :: c.orders))
            _ clusters [] ?_ ?_
          · intro r2 hr2
            exact absurd hr2 (List.not_mem_nil r2)
          · intro acc c hc hacc r2 hr2
            rcases List.mem_append.mp hr2 with h2 | h2
            · exact hacc r2 h2
            · exact ⟨depot, hd, clusters, hmg, c, hc, h2⟩
        exact hval r hr
    next => exact fun pr hpr r hr => hb pr hpr r hr

/-- C10: with node identities unique in the list, a VENDOR node appears in
clarkWright's output only as a one-node fallback Route: savings mention
only ORDER-node ids, so a vendor id never enters a loop-built route, and
the only arena record containing it is its own singleton.  Conjunct 2
instantiates this to the [vendor, ...orders] node list that
routeWithinClusters feeds to clarkWright; conjunct 3 states it inside
routeWithinClusters itself: every route of the output comes from the
clarkWright run of one cluster of its depot, and contains that cluster's
vendor id only as the singleton [vendor.id] — the vendor is never routed
together with its own orders. -/
theorem clarkWright_vendor_only_singleton (dist : Coordinate → Coordinate → ℚ) :
    (∀ (depot : Vehicle) (ns : List NodeV), (ns.map NodeV.id).Nodup →
      ∀ v ∈ ns, v.type = NodeType.VENDOR →
      ∀ r ∈ clarkWright dist depot ns, v.id ∈ r.nodes → r.nodes = [v.id]) ∧
    (∀ (depot : Vehicle) (vendor : NodeV) (orders : List NodeV),
      ((vendor :: orders).map NodeV.id).Nodup → vendor.type = NodeType.VENDOR →
      ∀ r ∈ clarkWright dist depot (vendor :: orders), vendor.id ∈ r.nodes →
        r.nodes = [vendor.id]) ∧
    (∀ (depotList : List Vehicle) (dcs : List (IDType × List VendorOrderCluster)),
      (∀ prc ∈ dcs, ∀ c ∈ prc.2, c.vendor.type = NodeType.VENDOR ∧
        ((c.vendor :: c.orders).map NodeV.id).Nodup) →
      ∀ pr ∈ routeWithinClusters dist depotList dcs, ∀ r ∈ pr.2,
        ∃ dep ∈ depotList, ∃ clusters,
          mapGet dcs (IDType.num dep.id) = some clusters ∧
          ∃ c ∈ clusters, r ∈ clarkWright dist dep (c.vendor :: c.orders) ∧
            (c.vendor.id ∈ r.nodes → r.nodes = [c.vendor.id])) := by
  refine ⟨?_, ?_, ?_⟩
  · intro depot ns hnd v hv hvt r hr hx
    exact vendor_singleton_core dist depot ns hnd v hv hvt r hr hx
  · intro depot vendor orders hnd hvt r hr hx
    exact vendor_singleton_core dist depot (vendor :: orders) hnd vendor
      (List.mem_cons_self vendor orders) hvt r hr hx
  · intro depotList dcs hc pr hpr r hr
    rcases routeWithinClusters_provenance dist depotList dcs pr hpr r hr with
      ⟨dep, hd, clusters, hmg, c, hcc, hrc⟩
    have hcv := hc (IDType.num dep.id, clusters) (mapGet_mem hmg) c hcc
    refine ⟨dep, hd, clusters, hmg, c, hcc, hrc, fun hx =>
      vendor_singleton_core dist dep (c.vendor :: c.orders) hcv.2 c.vendor
        (List.mem_cons_self c.vendor c.orders) hcv.1 r hrc hx⟩

theorem nearestStep_foldl_spec (dist : Coordinate → Coordinate → ℚ) (loc : Coordinate) :
    ∀ (xs : List Vehicle) (bid bd : ℚ),
      (xs.foldl (nearestStep dist loc) (some (bid, bd)) = some (bid, bd) ∧
        ∀ d2 ∈ xs, ¬ dist d2.toCoord loc < bd) ∨
      (∃ l1 dep l2, xs = l1 ++ dep :: l2 ∧
        xs.foldl (nearestStep dist loc) (some (bid, bd)) =
          some (dep.id, dist dep.toCoord loc) ∧
        dist dep.toCoord loc < bd ∧
        (∀ d2 ∈ xs, ¬ dist d2.toCoord loc < dist dep.toCoord loc) ∧
        (∀ d2 ∈ l1, dist dep.toCoord loc < dist d2.toCoord loc)) := by
  intro xs
  induction xs with
  | nil =>
    intro bid bd
    exact Or.inl ⟨rfl, by simp⟩
  | cons y ys ih =>
    intro bid bd
    rw [List.foldl_cons]
    by_cases hlt : dist y.toCoord loc < bd
    · have hstep : nearestStep dist loc (some (bid, bd)) y =
          some (y.id, dist y.toCoord loc) := by
        unfold nearestStep
        dsimp only
        rw [if_pos hlt]
      rw [hstep]
      rcases ih y.id (dist y.toCoord loc) with
        ⟨heq, hall⟩ | ⟨l1, dep, l2, hxs, heq, hlt2, hmin, hgt⟩
      · refine Or.inr ⟨[], y, ys, rfl, heq, hlt, ?_, by simp⟩
        intro d2 hd2
        rcases List.mem_cons.mp hd2 with rfl | h2
        · exact lt_irrefl _
        · exact hall d2 h2
      · refine Or.inr ⟨y :: l1, dep, l2, by rw [hxs, List.cons_append], heq, lt_trans hlt2 hlt, ?_, ?_⟩
        · intro d2 hd2
          rcases List.mem_cons.mp hd2 with rfl | h2
          · exact asymm hlt2
          · exact hmin d2 h2
        · intro d2 hd2
          rcases List.mem_cons.mp hd2 with rfl | h2
          · exact hlt2
          · exact hgt d2 h2
    · have hstep : nearestStep dist loc (some (bid, bd)) y = some (bid, bd) := by
        unfold nearestStep
        dsimp only
        rw [if_neg hlt]
      rw [hstep]
      rcases ih bid bd with
        ⟨heq, hall⟩ | ⟨l1, dep, l2, hxs, heq, hlt2, hmin, hgt⟩
      · refine Or.inl ⟨heq, ?_⟩
        intro d2 hd2
        rcases List.mem_cons.mp hd2 with rfl | h2
        · exact hlt
        · exact hall d2 h2
      · have hyd : dist dep.toCoord loc < dist y.toCoord loc :=
          lt_of_lt_of_le hlt2 (not_lt.mp hlt)
        refine Or.inr ⟨y :: l1, dep, l2, by rw [hxs, List.cons_append], heq, hlt2, ?_, ?_⟩
        · intro d2 hd2
          rcases List.mem_cons.mp hd2 with rfl | h2
          · exact asymm hyd
          · exact hmin d2 h2
        · intro d2 hd2
          rcases List.mem_cons.mp hd2 with rfl | h2
          · exact hyd
          · exact hgt d2 h2

theorem getNearestDepot_spec (dist : Coordinate → Coordinate → ℚ)
    (depotList : List Vehicle) (loc : Coordinate) :
    (depotList = [] → getNearestDepot dist depotList loc = none) ∧
    (depotList ≠ [] → ∃ l1 dep l2, depotList = l1 ++ dep :: l2 ∧
      getNearestDepot dist depotList loc = some (IDType.num dep.id) ∧
      (∀ d2 ∈ depotList, ¬ dist d2.toCoord loc < dist dep.toCoord loc) ∧
      (∀ d2 ∈ l1, dist dep.toCoord loc < dist d2.toCoord loc)) := by
  constructor
  · intro h
    subst h
    rfl
  · intro hne
    cases depotList with
    | nil => exact absurd rfl hne
    | cons y ys =>
      unfold getNearestDepot
      rw [List.foldl_cons]
      have hstep : nearestStep dist loc none y = some (y.id, dist y.toCoord loc) := rfl
      rw [hstep]
      rcases nearestStep_foldl_spec dist loc ys y.id (dist y.toCoord loc) with
        ⟨heq, hall⟩ | ⟨l1, dep, l2, hxs, heq, hlt2, hmin, hgt⟩
      · refine ⟨[], y, ys, rfl, by rw [heq] ; rfl, ?_, by simp⟩
        intro d2 hd2
        rcases List.mem_cons.mp hd2 with rfl | h2
        · exact lt_irrefl _
        · exact hall d2 h2
      · refine ⟨y :: l1, dep, l2, by rw [hxs, List.cons_append], by rw [heq] ; rfl, ?_, ?_⟩
        · intro d2 hd2
          rcases List.mem_cons.mp hd2 with rfl | h2
          · exact asymm hlt2
          · exact hmin d2 h2
        · intro d2 hd2
          rcases List.mem_cons.mp hd2 with rfl | h2
          · exact hlt2
          · exact hgt d2 h2
theorem mapGet_cons {α : Type} (p : IDType × α) (m : List (IDType × α)) (k : IDType) :
    mapGet (p :: m) k = if p.1 == k then some p.2 else mapGet m k := by
  by_cases h : p.1 == k
  · simp [mapGet, List.find?_cons, h]
  · simp [mapGet, List.find?_cons, h]

theorem mapGet_isSome_find {α : Type} (m : List (IDType × α)) (k : IDType) :
    (mapGet m k).isSome = (m.find? fun p => p.fst == k).isSome := by
  unfold mapGet
  cases m.find? fun p => p.fst == k <;> rfl

theorem mapGet_overwrite_self {α : Type} :
    ∀ (m : List (IDType × α)) (k : IDType) (v : α), (mapGet m k).isSome →
      mapGet (m.map fun q => if q.fst == k then (k, v) else q) k = some v := by
  intro m
  induction m with
  | nil => intro k v h ; exact absurd h (by simp [mapGet])
  | cons q m' ih =>
    intro k v h
    rw [List.map_cons]
    by_cases hq : q.fst == k
    · rw [if_pos hq, mapGet_cons, if_pos (by simp)]
    · rw [if_neg hq, mapGet_cons, if_neg hq]
      rw [mapGet_cons, if_neg hq] at h
      exact ih k v h

theorem mapGet_overwrite_ne {α : Type} :
    ∀ (m : List (IDType × α)) (k k2 : IDType) (v : α), k2 ≠ k →
      mapGet (m.map fun q => if q.fst == k then (k, v) else q) k2 = mapGet m k2 := by
  intro m
  induction m with
  | nil => intro k k2 v _ ; rfl
  | cons q m' ih =>
    intro k k2 v hne
    rw [List.map_cons]
    by_cases hq : q.fst == k
    · rw [if_pos hq, mapGet_cons, mapGet_cons,
        if_neg (by simpa using fun h => hne h.symm),
        if_neg (by
          have hqk : q.fst = k := beq_iff_eq.mp hq
          simpa [hqk] using fun h => hne h.symm)]
      exact ih k k2 v hne
    · rw [if_neg hq, mapGet_cons, mapGet_cons]
      by_cases hq2 : q.fst == k2
      · rw [if_pos hq2, if_pos hq2]
      · rw [if_neg hq2, if_neg hq2]
        exact ih k k2 v hne

theorem mapGet_append_self {α : Type} :
    ∀ (m : List (IDType × α)) (k : IDType) (v : α), mapGet m k = none →
      mapGet (m ++ [(k, v)]) k = some v := by
  intro m
  induction m with
  | nil =>
    intro k v _
    rw [List.nil_append, mapGet_cons, if_pos (by simp)]
  | cons q m' ih =>
    intro k v h
    rw [List.cons_append, mapGet_cons]
    rw [mapGet_cons] at h
    by_cases hq : q.fst == k
    · rw [if_pos hq] at h
      exact absurd h (by simp)
    · rw [if_neg hq] at h
      rw [if_neg hq]
      exact ih k v h

theorem mapGet_append_ne {α : Type} :
    ∀ (m : List (IDType × α)) (k k2 : IDType) (v : α), k2 ≠ k →
      mapGet (m ++ [(k, v)]) k2 = mapGet m k2 := by
  intro m
  induction m with
  | nil =>
    intro k k2 v hne
    rw [List.nil_append, mapGet_cons, if_neg (by simpa using fun h => hne h.symm)]
  | cons q m' ih =>
    intro k k2 v hne
    rw [List.cons_append, mapGet_cons, mapGet_cons]
    by_cases hq : q.fst == k2
    · rw [if_pos hq, if_pos hq]
    · rw [if_neg hq, if_neg hq]
      exact ih k k2 v hne

theorem mapGet_mapSet_self {α : Type} (m : List (IDType × α)) (k : IDType) (v : α) :
    mapGet (mapSet m k v) k = some v := by
  unfold mapSet
  by_cases hf : (m.find? fun p => p.fst == k).isSome = true
  · rw [if_pos hf]
    exact mapGet_overwrite_self m k v (by rw [mapGet_isSome_find] ; exact hf)
  · rw [if_neg hf]
    apply mapGet_append_self
    unfold mapGet
    cases hfind : m.find? fun p => p.fst == k
    · rfl
    · exfalso
      apply hf
      rw [hfind]
      rfl

theorem mapGet_mapSet_ne {α : Type} (m : List (IDType × α)) (k k2 : IDType) (v : α)
    (hne : k2 ≠ k) : mapGet (mapSet m k v) k2 = mapGet m k2 := by
  unfold mapSet
  split
  · exact mapGet_overwrite_ne m k k2 v hne
  · exact mapGet_append_ne m k k2 v hne
/-- C9: formDepotClusters assigns every vendor, together with exactly the
orders whose vendorId equals that vendor's id, to a depot dep such that no
depot of the list is strictly closer to the vendor, and — ties being
decided by the strict-less-than scan — every depot BEFORE dep in input
order is strictly farther (dep is the first depot at minimal distance);
with an empty depot list the result mapping is empty. -/
theorem formDepotClusters_nearest (dist : Coordinate → Coordinate → ℚ)
    (depotList : List Vehicle) (vendorList orderList : List NodeV) :
    (depotList = [] → formDepotClusters dist depotList vendorList orderList = []) ∧
    (∀ vendor ∈ vendorList, depotList ≠ [] →
      ∃ l1 dep l2, depotList = l1 ++ dep :: l2 ∧
        getNearestDepot dist depotList vendor.toCoord = some (IDType.num dep.id) ∧
        (∀ d2 ∈ depotList,
          ¬ dist d2.toCoord vendor.toCoord < dist dep.toCoord vendor.toCoord) ∧
        (∀ d2 ∈ l1,
          dist dep.toCoord vendor.toCoord < dist d2.toCoord vendor.toCoord) ∧
        (⟨vendor, orderList.filter fun o => isAssociatedWithVendor o vendor⟩ :
            VendorOrderCluster) ∈
          (mapGet (formDepotClusters dist depotList vendorList orderList)
            (IDType.num dep.id)).getD []) := by
  constructor
  · intro h
    subst h
    unfold formDepotClusters
    refine @foldl_preserves NodeV (List (IDType × List VendorOrderCluster))
      (fun m => m = []) _ vendorList [] rfl ?_
    intro b2 a _ hb
    subst hb
    rfl
  · intro vendor hv hne
    rcases getNearestDepot_spec dist depotList vendor.toCoord with ⟨_, hspec⟩
    rcases hspec hne with ⟨l1, dep, l2, hsplit, hnd, hmin, hgt⟩
    refine ⟨l1, dep, l2, hsplit, hnd, hmin, hgt, ?_⟩
    rcases List.append_of_mem hv with ⟨va, vb, hveq⟩
    unfold formDepotClusters
    rw [hveq, List.foldl_append, List.foldl_cons]
    set cl : VendorOrderCluster :=
      ⟨vendor, orderList.filter fun o => isAssociatedWithVendor o vendor⟩ with hcl
    set key : IDType := IDType.num dep.id with hkey
    have hstep : ∀ (m : List (IDType × List VendorOrderCluster)),
        cl ∈ (mapGet
          ((fun depotClusters v2 =>
            match getNearestDepot dist depotList v2.toCoord with
            | some nearestDepotId =>
              mapSet depotClusters nearestDepotId
                ((mapGet depotClusters nearestDepotId).getD [] ++
                  [⟨v2, orderList.filter fun o => isAssociatedWithVendor o v2⟩])
            | none => depotClusters) m vendor) key).getD [] := by
      intro m
      dsimp only
      rw [hnd]
      rw [mapGet_mapSet_self]
      exact List.mem_append_right _ (List.mem_singleton.mpr rfl)
    refine @foldl_preserves NodeV (List (IDType × List VendorOrderCluster))
      (fun m => cl ∈ (mapGet m key).getD []) _ vb _ (hstep _) ?_
    intro b2 v2 _ hb
    dsimp only
    cases hno : getNearestDepot dist depotList v2.toCoord with
    | none => exact hb
    | some k2 =>
      by_cases hk : k2 = key
      · subst hk
        rw [mapGet_mapSet_self]
        exact List.mem_append_left _ hb
      · rw [mapGet_mapSet_ne _ _ _ _ (fun h => hk h.symm)]
        exact hb

/-!
Witnesses: each applies its claim theorem at a concrete input, discharging
every hypothesis there.
-/

theorem processSaving_bothAssigned_witness :
    processSaving depotC4 nodesC4 stC4 savC4 =
      ⟨[0], [(0, ⟨[.num 1, .num 2], 8, 10⟩), (1, ⟨[.num 2], 9, 10⟩)],
       [(.num 2, 0), (.num 1, 0), (.num 2, 1)], 2⟩ := by
  have h := processSaving_bothAssigned depotC4 nodesC4 stC4 savC4
    ⟨0, 1, .num 1, .ORDER, 1, none⟩ ⟨0, 2, .num 2, .ORDER, 1, none⟩ 0 1
    ⟨[.num 1], 9, 10⟩ ⟨[.num 2], 9, 10⟩ (by decide) (by decide) (by decide)
    (by decide) (by decide) (by decide) (by decide)
  rw [h.2.2.1 (by decide) (by decide) (by decide) (by decide)]
  decide

theorem clarkWright_capacityUsed_nonneg_witness :
    (0 : ℚ) ≤ (Route.mk [.num 3, .num 4, .num 1, .num 2] 0 10).capacityUsed :=
  (clarkWright_capacityUsed_nonneg distLong depotC1 nodesC1).1
    ⟨[.num 3, .num 4, .num 1, .num 2], 0, 10⟩ (by decide)

theorem calculateSavings_pairs_witness :
    ∃ a ∈ nodesC1, ∃ b ∈ nodesC1,
      a.type = NodeType.ORDER ∧ b.type = NodeType.ORDER ∧
      (Saving.mk (.num 1) (.num 2) 4).i = a.id ∧
      (Saving.mk (.num 1) (.num 2) 4).j = b.id ∧
      (Saving.mk (.num 1) (.num 2) 4).saving = savingValue distLong depotC1 a b :=
  (calculateSavings_pairs distLong depotC1 nodesC1).2 ⟨.num 1, .num 2, 4⟩ (by decide)

theorem clarkWright_fallback_characterization_witness :
    fallback depotC8 initState (⟨0, 1, .num 1, .ORDER, 1, none⟩ : NodeV) =
      ⟨[0], [(0, ⟨[.num 1], 9, 10⟩)], [(.num 1, 0)], 1⟩ := by
  have h := (clarkWright_fallback_characterization distLong depotC8 []).2.1
    initState ⟨0, 1, .num 1, .ORDER, 1, none⟩ (by decide) (by decide) (by decide)
  rw [h]
  decide

theorem clarkWright_overcapacity_silent_drop_witness :
    getRouteId (clarkWrightState distLong depotC8 [nodeC8]) nodeC8.id = none ∧
    ∀ r ∈ clarkWright distLong depotC8 [nodeC8], nodeC8.id ∉ r.nodes :=
  clarkWright_overcapacity_silent_drop distLong depotC8 [nodeC8] nodeC8
    (by decide) (by decide)

theorem formDepotClusters_nearest_witness :
    ∃ l1 dep l2, [depotC9a, depotC9b] = l1 ++ dep :: l2 ∧
      getNearestDepot distLong [depotC9a, depotC9b] vendorC9.toCoord =
        some (IDType.num dep.id) ∧
      (∀ d2 ∈ [depotC9a, depotC9b],
        ¬ distLong d2.toCoord vendorC9.toCoord <
            distLong dep.toCoord vendorC9.toCoord) ∧
      (∀ d2 ∈ l1,
        distLong dep.toCoord vendorC9.toCoord <
          distLong d2.toCoord vendorC9.toCoord) ∧
      (⟨vendorC9, [orderC9].filter fun o => isAssociatedWithVendor o vendorC9⟩ :
          VendorOrderCluster) ∈
        (mapGet (formDepotClusters distLong [depotC9a, depotC9b] [vendorC9] [orderC9])
          (IDType.num dep.id)).getD [] :=
  (formDepotClusters_nearest distLong [depotC9a, depotC9b] [vendorC9] [orderC9]).2
    vendorC9 (by decide) (by decide)

theorem clarkWright_vendor_only_singleton_witness :
    (Route.mk [.num 5] 8 10).nodes = [IDType.num 5] :=
  (clarkWright_vendor_only_singleton distLong).1 depotC9a [vendorC9, orderC9]
    (by decide) vendorC9 (by decide) (by decide) ⟨[.num 5], 8, 10⟩
    (by decide) (by decide)

end Cvrp
